import Mathlib

/-!
Shallow embedding of the `ManualScalerTrait` reconciliation controller
(`controllers/manualscalertrait_controller.go`) and the fragments of its
collaborators (resource store, crossplane condition helpers,
controller-runtime owner-reference helpers) that its behaviour depends on.

The reconciler is a single forward pass: fetch the trait, fetch the referenced
workload, validate its UID, scan the workload's resources for the first
fetchable Deployment, stamp a controller owner reference on a copy, and issue a
merge patch against the pre-mutation copy, writing a status condition on every
exit path except the trait-fetch failure paths.
-/

namespace OamScaler

/-! ## Error strings and constants

`errLocateWorkload` and `errLocateDeployment` are declared in
`manualscalertrait_controller.go` with exactly these values.  The remaining
constants (`errUpdateStatus`, `errUpdateDeployment`, `errScaleDeployment`,
`KindDeployment`, `oamReconcileWait`) are referenced there but defined in a
sibling file of the `controllers` package that is not part of the provided
sources. -/

def errLocateWorkload : String := "cannot find workload"

def errLocateDeployment : String := "cannot find deployment"

/-- Modelled from the spec: the wrap message for a failed status write
("Operational/status-write failure — … propagated upward"); its value is
declared outside the provided sources, taken here from its Go constant name
`errUpdateStatus`. -/
def errUpdateStatus : String := "cannot update status"

/-- Modelled from the spec: the wrap message the code applies when
`SetControllerReference` fails (spec step EstablishOwnership).  Its value is
declared outside the provided sources; the Go code wraps this path with the
constant named `errUpdateDeployment`, a different constant from the
`errScaleDeployment` used on the patch-failure path, and the value here is
taken from that constant's name. -/
def errUpdateDeployment : String := "cannot update deployment"

/-- Modelled from the spec: the wrap message the code applies when the merge
patch fails (spec step ApplyPatch, reason `CannotScaleDeployment`).  Its value
is declared outside the provided sources, taken here from its Go constant name
`errScaleDeployment`. -/
def errScaleDeployment : String := "cannot scale deployment"

/-- Modelled from the spec: the expected deployable-resource kind matched
against `Workload.status.managedResources` entries; the spec's examples use
kind "Deployment" and the Go constant is named `KindDeployment`. -/
def KindDeployment : String := "Deployment"

/-- Modelled from the spec: the fixed retry delay ("a single shared constant"
governing all scheduled retries).  Only its fixedness matters; the value is
declared outside the provided sources. -/
def oamReconcileWait : Nat := 30

/-- `errors.Wrap(err, msg)` of github.com/pkg/errors renders as
`msg ++ ": " ++ err`. -/
def wrap (msg e : String) : String := msg ++ ": " ++ e

/-- `errors.Wrap` returns nil on a nil argument, so wrapping an absent error
yields an absent error. -/
def wrapO (msg : String) : Option String → Option String
  | none => none
  | some e => some (wrap msg e)

/-! ## Data model -/

/-- `metav1.OwnerReference` (the fields `SetControllerReference` sets and
`referSameObject` compares). -/
structure OwnerReference where
  APIVersion : String
  Kind : String
  Name : String
  UID : String
  Controller : Bool
deriving DecidableEq, Repr

/-- Crossplane condition status: `ReconcileSuccess` sets the condition true,
`ReconcileError` sets it false. -/
inductive ConditionStatus where
  | success
  | error
deriving DecidableEq, Repr

/-- The single `TypeSynced` condition the controller writes; `Message` carries
the rendered error string of `ReconcileError`. -/
structure Condition where
  Status : ConditionStatus
  Message : String
deriving DecidableEq, Repr

/-- `cpv1alpha1.ReconcileError(err)`: an error condition carrying the error
text. -/
def ReconcileError (e : String) : Condition := ⟨ConditionStatus.error, e⟩

/-- `cpv1alpha1.ReconcileSuccess()`: a success condition with no message. -/
def ReconcileSuccess : Condition := ⟨ConditionStatus.success, ""⟩

/-- `manualScaler.Spec.WorkloadReference`: name plus optional expected UID. -/
structure WorkloadReference where
  Name : String
  UID : Option String
deriving DecidableEq, Repr

structure ManualScalerTraitSpec where
  ReplicaCount : Int
  WorkloadReference : WorkloadReference
deriving DecidableEq, Repr

/-- The trait status holds the single condition slot this controller writes
(`SetConditions` keys conditions by type and only one type is ever used
here). -/
structure ManualScalerTraitStatus where
  Condition : Option Condition
deriving DecidableEq, Repr

structure ManualScalerTrait where
  Name : String
  UID : String
  Spec : ManualScalerTraitSpec
  Status : ManualScalerTraitStatus
deriving DecidableEq, Repr

/-- One entry of `workload.Status.Resources`. -/
structure TypedReference where
  Kind : String
  Name : String
deriving DecidableEq, Repr

structure ContainerizedWorkload where
  Name : String
  UID : String
  Resources : List TypedReference
deriving DecidableEq, Repr

/-- `appsv1.Deployment`, restricted to the fields the controller touches plus
`OtherFields`, an association list standing for every remaining field, used to
state the merge-patch frame property. -/
structure Deployment where
  Name : String
  UID : String
  OwnerReferences : List OwnerReference
  Replicas : Int
  OtherFields : List (String × String)
deriving DecidableEq, Repr

/-! ## Association-list primitives for the resource store -/

def assocLookup {α : Type} : List (String × α) → String → Option α
  | [], _ => none
  | kv :: rest, k => if kv.1 = k then some kv.2 else assocLookup rest k

/-- Replace the first binding of `k` (no change when `k` is absent; the
reconciler only patches a deployment it has already fetched). -/
def assocUpdate {α : Type} : List (String × α) → String → α → List (String × α)
  | [], _, _ => []
  | kv :: rest, k, v => if kv.1 = k then (k, v) :: rest else kv :: assocUpdate rest k v

/-- Set a binding, replacing the first occurrence or appending. -/
def assocSet {α : Type} : List (String × α) → String → α → List (String × α)
  | [], k, v => [(k, v)]
  | kv :: rest, k, v => if kv.1 = k then (k, v) :: rest else kv :: assocSet rest k v

/-! ## The resource store and injected faults -/

/-- The slice of the resource store the reconciler touches: the one trait under
reconciliation, workloads and deployments keyed by name (all lookups in the Go
code use `req.Namespace`, so one namespace suffices). -/
structure Store where
  trait : Option ManualScalerTrait
  workloads : List (String × ContainerizedWorkload)
  deployments : List (String × Deployment)
deriving DecidableEq, Repr

/-- Transient failures injected by the environment: non-NotFound errors of the
trait fetch, errors of the workload fetch, per-name errors of deployment
fetches, patch failure, and status-write failure. -/
structure Faults where
  traitGetErr : Option String
  workloadGetErr : Option String
  deployGetErr : String → Option String
  patchErr : Option String
  statusUpdateErr : Option String

def noFaults : Faults := ⟨none, none, fun _ => none, none, none⟩

/-- Stand-in for the store's NotFound error text when a fetched object is
absent. -/
def errNotFound : String := "not found"

def getWorkload (f : Faults) (wls : List (String × ContainerizedWorkload)) (n : String) :
    Except String ContainerizedWorkload :=
  match f.workloadGetErr with
  | some e => Except.error e
  | none =>
    match assocLookup wls n with
    | some w => Except.ok w
    | none => Except.error errNotFound

def getDeployment (f : Faults) (deps : List (String × Deployment)) (n : String) :
    Except String Deployment :=
  match f.deployGetErr n with
  | some e => Except.error e
  | none =>
    match assocLookup deps n with
    | some d => Except.ok d
    | none => Except.error errNotFound

/-! ## Owner references (`ctrl.SetControllerReference`) -/

/-- The owner reference `SetControllerReference` builds from the trait (its
GVK is fixed by the scheme; `Controller` is set). -/
def ownerRefOfTrait (t : ManualScalerTrait) : OwnerReference :=
  { APIVersion := "core.oam.dev/v1alpha2"
    Kind := "ManualScalerTrait"
    Name := t.Name
    UID := t.UID
    Controller := true }

/-- controller-runtime's `referSameObject`: same group-version, kind and name
(the UID and controller flag are not compared). -/
def referSameObject (a b : OwnerReference) : Bool :=
  a.APIVersion == b.APIVersion && a.Kind == b.Kind && a.Name == b.Name

/-- controller-runtime's `upsertOwnerRef`: replace the first reference to the
same object, else append. -/
def upsertOwnerRef (ref : OwnerReference) : List OwnerReference → List OwnerReference
  | [] => [ref]
  | r :: rest => if referSameObject r ref then ref :: rest else r :: upsertOwnerRef ref rest

/-- The message of controller-runtime's `AlreadyOwnedError`; only its presence
matters, the exact rendering is framework-internal. -/
def errAlreadyOwned : String := "object is already owned by another controller"

/-- `ctrl.SetControllerReference(&manualScaler, sd, scheme)`: fail if a
controller reference to a different object exists, else upsert the trait's
controller reference. -/
def SetControllerReference (t : ManualScalerTrait) (d : Deployment) : Except String Deployment :=
  let ref := ownerRefOfTrait t
  match d.OwnerReferences.find? (fun r => r.Controller) with
  | some existing =>
    if referSameObject existing ref then
      Except.ok { d with OwnerReferences := upsertOwnerRef ref d.OwnerReferences }
    else
      Except.error errAlreadyOwned
  | none => Except.ok { d with OwnerReferences := upsertOwnerRef ref d.OwnerReferences }

/-! ## Merge patch (`client.MergeFrom` and its server-side application) -/

/-- The merge-patch document: the fields asserted by the patch.  `none` (or
`[]` for the other-field map) means the field is absent from the document and
the server keeps its current value. -/
structure PatchDoc where
  Replicas : Option Int
  OwnerReferences : Option (List OwnerReference)
  OtherFields : List (String × String)
deriving DecidableEq, Repr

/-- `client.MergeFrom(&scaleDeploy)` against the mutated copy `sd`: the
document contains exactly the fields whose effective value in `sd` differs
from the base. -/
def MergeFrom (base sd : Deployment) : PatchDoc :=
  { Replicas := if sd.Replicas = base.Replicas then none else some sd.Replicas
    OwnerReferences :=
      if sd.OwnerReferences = base.OwnerReferences then none else some sd.OwnerReferences
    OtherFields :=
      sd.OtherFields.filter (fun kv =>
        assocLookup sd.OtherFields kv.1 == some kv.2
          && !(assocLookup base.OtherFields kv.1 == some kv.2)) }

/-- Server-side application of a merge-patch document to the current object:
asserted fields are overwritten, absent fields keep their current value. -/
def applyPatch (current : Deployment) (p : PatchDoc) : Deployment :=
  { current with
    Replicas := p.Replicas.getD current.Replicas
    OwnerReferences := p.OwnerReferences.getD current.OwnerReferences
    OtherFields := p.OtherFields.foldl (fun acc kv => assocSet acc kv.1 kv.2) current.OtherFields }

/-! ## Reconcile -/

/-- `manualScaler.Status.SetConditions(c)`: overwrite the single condition
slot on the in-memory object. -/
def SetConditions (t : ManualScalerTrait) (c : Condition) : ManualScalerTrait :=
  { t with Status := ⟨some c⟩ }

/-- `r.Status().Update(ctx, &manualScaler)`: persist the in-memory trait's
status, or fail without persisting. -/
def UpdateStatus (f : Faults) (s : Store) (t : ManualScalerTrait) : Store × Option String :=
  match f.statusUpdateErr with
  | some e => (s, some e)
  | none => ({ s with trait := some t }, none)

/-- `ctrl.Result`: `RequeueAfter = 0` is the `{done}` result. -/
structure RecResult where
  RequeueAfter : Nat
deriving DecidableEq, Repr

/-- Observable calls the reconciler makes against the resource store, in
order.  `statusUpdate` carries the condition held by the written status,
`patchDeployment` the issued merge-patch document. -/
inductive Effect where
  | getTrait
  | getWorkload (name : String)
  | getDeployment (name : String)
  | patchDeployment (name : String) (p : PatchDoc)
  | statusUpdate (c : Condition)
deriving DecidableEq, Repr

/-- The full observable outcome of one `Reconcile` invocation. -/
structure Outcome where
  store : Store
  result : RecResult
  err : Option String
  effects : List Effect
deriving Repr

/-- The deployment-resolution loop of `Reconcile`: scan
`workload.Status.Resources` for entries of kind `KindDeployment`, fetch each,
and stop at the first successful fetch.  A failed candidate fetch sets an
error condition on the in-memory trait (threaded here as the first component;
every later exit of `Reconcile` overwrites this same condition slot before any
status write, so it is unobservable) and scanning continues. -/
def resolveDeployment (f : Faults) (deps : List (String × Deployment)) (cond : Option Condition) :
    List TypedReference → Option Condition × List Effect × Option Deployment
  | [] => (cond, [], none)
  | res :: rest =>
    if res.Kind == KindDeployment then
      match getDeployment f deps res.Name with
      | Except.ok d => (cond, [Effect.getDeployment res.Name], some d)
      | Except.error e =>
        let cond := some (ReconcileError (wrap errLocateDeployment e))
        let out := resolveDeployment f deps cond rest
        (out.1, Effect.getDeployment res.Name :: out.2.1, out.2.2)
    else resolveDeployment f deps cond rest

/-- `ManualScalerTraitReconciler.Reconcile`, translated step by step from
`manualscalertrait_controller.go`. -/
def Reconcile (f : Faults) (s : Store) : Outcome :=
  match f.traitGetErr with
  | some e => ⟨s, ⟨0⟩, some e, [Effect.getTrait]⟩
  | none =>
    match s.trait with
    | none => ⟨s, ⟨0⟩, none, [Effect.getTrait]⟩
    | some manualScaler =>
      let wname := manualScaler.Spec.WorkloadReference.Name
      match getWorkload f s.workloads wname with
      | Except.error e =>
        let c := ReconcileError (wrap errLocateWorkload e)
        let su := UpdateStatus f s (SetConditions manualScaler c)
        ⟨su.1, ⟨oamReconcileWait⟩, wrapO errUpdateStatus su.2,
          [Effect.getTrait, Effect.getWorkload wname, Effect.statusUpdate c]⟩
      | Except.ok workload =>
        if manualScaler.Spec.WorkloadReference.UID == none
            || some workload.UID != manualScaler.Spec.WorkloadReference.UID then
          let c := ReconcileError errLocateWorkload
          let su := UpdateStatus f s (SetConditions manualScaler c)
          ⟨su.1, ⟨oamReconcileWait⟩, wrapO errUpdateStatus su.2,
            [Effect.getTrait, Effect.getWorkload wname, Effect.statusUpdate c]⟩
        else
          let scan := resolveDeployment f s.deployments manualScaler.Status.Condition workload.Resources
          match scan.2.2 with
          | none =>
            let c := ReconcileError errLocateDeployment
            let su := UpdateStatus f s (SetConditions manualScaler c)
            ⟨su.1, ⟨oamReconcileWait⟩, wrapO errUpdateStatus su.2,
              [Effect.getTrait, Effect.getWorkload wname] ++ scan.2.1
                ++ [Effect.statusUpdate c]⟩
          | some scaleDeploy =>
            match SetControllerReference manualScaler scaleDeploy with
            | Except.error e =>
              let c := ReconcileError (wrap errUpdateDeployment e)
              let su := UpdateStatus f s (SetConditions manualScaler c)
              ⟨su.1, ⟨oamReconcileWait⟩, wrapO errUpdateStatus su.2,
                [Effect.getTrait, Effect.getWorkload wname] ++ scan.2.1
                  ++ [Effect.statusUpdate c]⟩
            | Except.ok sd =>
              let p := MergeFrom scaleDeploy sd
              match f.patchErr with
              | some e =>
                let c := ReconcileError (wrap errScaleDeployment e)
                let su := UpdateStatus f s (SetConditions manualScaler c)
                ⟨su.1, ⟨oamReconcileWait⟩, wrapO errUpdateStatus su.2,
                  [Effect.getTrait, Effect.getWorkload wname] ++ scan.2.1
                    ++ [Effect.patchDeployment scaleDeploy.Name p, Effect.statusUpdate c]⟩
              | none =>
                let s1 : Store :=
                  { s with deployments :=
                      assocUpdate s.deployments scaleDeploy.Name (applyPatch scaleDeploy p) }
                let c := ReconcileSuccess
                let su := UpdateStatus f s1 (SetConditions manualScaler c)
                ⟨su.1, ⟨0⟩, wrapO errUpdateStatus su.2,
                  [Effect.getTrait, Effect.getWorkload wname] ++ scan.2.1
                    ++ [Effect.patchDeployment scaleDeploy.Name p, Effect.statusUpdate c]⟩

/-! ## Observation helpers over outcomes -/

/-- Number of status-write attempts among the effects. -/
def statusWrites (effs : List Effect) : Nat :=
  (effs.filter fun e =>
    match e with
    | Effect.statusUpdate _ => true
    | _ => false).length

/-- The conditions carried by the status writes, in order. -/
def writtenConditions (effs : List Effect) : List Condition :=
  effs.filterMap fun e =>
    match e with
    | Effect.statusUpdate c => some c
    | _ => none

/-- Number of patch attempts among the effects. -/
def patchAttempts (effs : List Effect) : Nat :=
  (effs.filter fun e =>
    match e with
    | Effect.patchDeployment _ _ => true
    | _ => false).length

/-- Number of deployment reads among the effects. -/
def deploymentReads (effs : List Effect) : Nat :=
  (effs.filter fun e =>
    match e with
    | Effect.getDeployment _ => true
    | _ => false).length

/-- Modelled from the spec: the ResolveTarget step as the spec words it — "the
first entry whose kind matches the expected deployable-resource kind" that is
successfully fetched, with per-candidate fetch failures skipped.  Stated
separately from `resolveDeployment` (the loop translated from the code) so the
two can be compared. -/
def specResolveTarget (f : Faults) (deps : List (String × Deployment)) :
    List TypedReference → Option Deployment
  | [] => none
  | res :: rest =>
    if res.Kind == KindDeployment then
      match getDeployment f deps res.Name with
      | Except.ok d => some d
      | Except.error _ => specResolveTarget f deps rest
    else specResolveTarget f deps rest

/-! ## Concrete inputs (the spec's test vectors) -/

/-- The spec's happy-path ScaleIntent: desired=3, workloadRef
{name:"wl1", expectedIdentity:"abc"}. -/
def happyTrait : ManualScalerTrait :=
  { Name := "scaler", UID := "t-uid",
    Spec := { ReplicaCount := 3, WorkloadReference := { Name := "wl1", UID := some "abc" } },
    Status := ⟨none⟩ }

/-- The spec's happy-path Workload: identity "abc", one managed Deployment
"dep1". -/
def happyWorkload : ContainerizedWorkload :=
  { Name := "wl1", UID := "abc",
    Resources := [{ Kind := "Deployment", Name := "dep1" }] }

/-- The spec's happy-path DeployableResource: "dep1" with replicaCount 1, plus
one unrelated field. -/
def happyDeployment : Deployment :=
  { Name := "dep1", UID := "d-uid", OwnerReferences := [], Replicas := 1,
    OtherFields := [("labels.app", "demo")] }

def happyStore : Store :=
  { trait := some happyTrait,
    workloads := [("wl1", happyWorkload)],
    deployments := [("dep1", happyDeployment)] }

/-- A deployment already controlled by a foreign owner, so
`SetControllerReference` fails. -/
def foreignOwnedDeployment : Deployment :=
  { happyDeployment with
    OwnerReferences :=
      [{ APIVersion := "apps/v1", Kind := "ReplicaSet", Name := "rs-1", UID := "rs-uid",
         Controller := true }] }

def foreignOwnedStore : Store :=
  { happyStore with deployments := [("dep1", foreignOwnedDeployment)] }

/-! ## Lemmas about the resolution loop -/

theorem statusWrites_append (a b : List Effect) :
    statusWrites (a ++ b) = statusWrites a + statusWrites b := by
  simp [statusWrites, List.filter_append]

theorem patchAttempts_append (a b : List Effect) :
    patchAttempts (a ++ b) = patchAttempts a + patchAttempts b := by
  simp [patchAttempts, List.filter_append]

theorem writtenConditions_append (a b : List Effect) :
    writtenConditions (a ++ b) = writtenConditions a ++ writtenConditions b := by
  simp [writtenConditions]

/-- Every effect the resolution loop emits is a deployment read. -/
theorem resolveDeployment_effects (f : Faults) (deps : List (String × Deployment)) :
    ∀ (l : List TypedReference) (cond : Option Condition),
      ∀ e ∈ (resolveDeployment f deps cond l).2.1, ∃ m, e = Effect.getDeployment m := by
  intro l
  induction l with
  | nil => intro cond e he; simp [resolveDeployment] at he
  | cons res rest ih =>
    intro cond e he
    by_cases hk : (res.Kind == KindDeployment) = true
    · simp only [resolveDeployment, hk, if_true] at he
      cases hget : getDeployment f deps res.Name with
      | ok d =>
        rw [hget] at he
        simp at he
        exact ⟨res.Name, he⟩
      | error err =>
        rw [hget] at he
        simp at he
        cases he with
        | inl h => exact ⟨res.Name, h⟩
        | inr h => exact ih _ e h
    · simp only [resolveDeployment, hk, if_false] at he
      exact ih _ e he

theorem statusWrites_resolveDeployment (f : Faults) (deps : List (String × Deployment))
    (cond : Option Condition) (l : List TypedReference) :
    statusWrites (resolveDeployment f deps cond l).2.1 = 0 := by
  simp only [statusWrites, List.length_eq_zero, List.filter_eq_nil_iff]
  intro e he
  obtain ⟨m, rfl⟩ := resolveDeployment_effects f deps l cond e he
  simp

theorem patchAttempts_resolveDeployment (f : Faults) (deps : List (String × Deployment))
    (cond : Option Condition) (l : List TypedReference) :
    patchAttempts (resolveDeployment f deps cond l).2.1 = 0 := by
  simp only [patchAttempts, List.length_eq_zero, List.filter_eq_nil_iff]
  intro e he
  obtain ⟨m, rfl⟩ := resolveDeployment_effects f deps l cond e he
  simp

theorem writtenConditions_resolveDeployment (f : Faults) (deps : List (String × Deployment))
    (cond : Option Condition) (l : List TypedReference) :
    writtenConditions (resolveDeployment f deps cond l).2.1 = [] := by
  simp only [writtenConditions, List.filterMap_eq_nil_iff]
  intro e he
  obtain ⟨m, rfl⟩ := resolveDeployment_effects f deps l cond e he
  simp

/-- The loop's resolved target is the spec's: the first entry of matching kind
whose fetch succeeds, independent of the threaded condition. -/
theorem resolveDeployment_target (f : Faults) (deps : List (String × Deployment)) :
    ∀ (l : List TypedReference) (cond : Option Condition),
      (resolveDeployment f deps cond l).2.2 = specResolveTarget f deps l := by
  intro l
  induction l with
  | nil => intro cond; simp [resolveDeployment, specResolveTarget]
  | cons res rest ih =>
    intro cond
    by_cases hk : (res.Kind == KindDeployment) = true
    · simp only [resolveDeployment, specResolveTarget, hk, if_true]
      cases hget : getDeployment f deps res.Name with
      | ok d => simp
      | error err => simp [ih]
    · simp only [resolveDeployment, specResolveTarget, hk, if_false]
      exact ih _

/-! ## Claim theorems -/

/-- C6: when the ScaleIntent does not exist (and its fetch reports nothing
worse), `Reconcile` returns done without error, performs no status write, and
leaves the store — hence every resource — untouched: its only effect is the
trait read. -/
theorem C6_deleted_declaration (f : Faults) (s : Store)
    (h1 : f.traitGetErr = none) (h2 : s.trait = none) :
    Reconcile f s = ⟨s, ⟨0⟩, none, [Effect.getTrait]⟩ := by
  simp [Reconcile, h1, h2]

theorem C6_deleted_declaration_witness :
    Reconcile noFaults { happyStore with trait := none } =
      ⟨{ happyStore with trait := none }, ⟨0⟩, none, [Effect.getTrait]⟩ :=
  C6_deleted_declaration noFaults { happyStore with trait := none } rfl rfl

/-- C10: when the initial ScaleIntent fetch fails with an error other than
NotFound, `Reconcile` returns that very error, writes no condition, performs
no status write, and schedules no retryAfter. -/
theorem C10_fetch_error (f : Faults) (s : Store) (e : String)
    (h : f.traitGetErr = some e) :
    Reconcile f s = ⟨s, ⟨0⟩, some e, [Effect.getTrait]⟩ ∧
    statusWrites (Reconcile f s).effects = 0 := by
  refine ⟨by simp [Reconcile, h], ?_⟩
  simp [Reconcile, h, statusWrites]

theorem C10_fetch_error_witness :
    Reconcile { noFaults with traitGetErr := some "boom" } happyStore =
      ⟨happyStore, ⟨0⟩, some "boom", [Effect.getTrait]⟩ :=
  (C10_fetch_error { noFaults with traitGetErr := some "boom" } happyStore "boom" rfl).1

/-- The status-write attempt reports exactly the injected status-write fault. -/
theorem UpdateStatus_snd (f : Faults) (s : Store) (t : ManualScalerTrait) :
    (UpdateStatus f s t).2 = f.statusUpdateErr := by
  cases h : f.statusUpdateErr <;> simp [UpdateStatus, h]

/-- A status write never touches the deployment table. -/
theorem UpdateStatus_deployments (f : Faults) (s : Store) (t : ManualScalerTrait) :
    (UpdateStatus f s t).1.deployments = s.deployments := by
  cases h : f.statusUpdateErr <;> simp [UpdateStatus, h]

/-- A status write never touches the workload table. -/
theorem UpdateStatus_workloads (f : Faults) (s : Store) (t : ManualScalerTrait) :
    (UpdateStatus f s t).1.workloads = s.workloads := by
  cases h : f.statusUpdateErr <;> simp [UpdateStatus, h]

/-- C5: an unset `workloadReference.UID`, or one differing from the fetched
Workload's UID, makes `Reconcile` write the `errLocateWorkload` error
condition, schedule the fixed-delay retry, and neither read nor mutate any
deployment. -/
theorem C5_identity_guard (f : Faults) (s : Store) (t : ManualScalerTrait)
    (w : ContainerizedWorkload)
    (h1 : f.traitGetErr = none) (h2 : s.trait = some t)
    (h3 : getWorkload f s.workloads t.Spec.WorkloadReference.Name = Except.ok w)
    (h4 : t.Spec.WorkloadReference.UID = none ∨ some w.UID ≠ t.Spec.WorkloadReference.UID) :
    writtenConditions (Reconcile f s).effects = [ReconcileError errLocateWorkload] ∧
    (Reconcile f s).result.RequeueAfter = oamReconcileWait ∧
    deploymentReads (Reconcile f s).effects = 0 ∧
    patchAttempts (Reconcile f s).effects = 0 ∧
    (Reconcile f s).store.deployments = s.deployments := by
  have hguard : (t.Spec.WorkloadReference.UID == none
      || some w.UID != t.Spec.WorkloadReference.UID) = true := by
    rcases h4 with h | h <;> simp [h]
  simp [Reconcile, h1, h2, h3, hguard, UpdateStatus_deployments,
    writtenConditions, deploymentReads, patchAttempts]

/-- A trait whose workload reference carries UID "X" while the workload's UID
is "abc". -/
def uidMismatchStore : Store :=
  { happyStore with
    trait := some { happyTrait with
      Spec := { ReplicaCount := 3, WorkloadReference := { Name := "wl1", UID := some "X" } } } }

theorem C5_identity_guard_witness :
    writtenConditions (Reconcile noFaults uidMismatchStore).effects =
        [ReconcileError errLocateWorkload] ∧
    (Reconcile noFaults uidMismatchStore).result.RequeueAfter = oamReconcileWait ∧
    deploymentReads (Reconcile noFaults uidMismatchStore).effects = 0 ∧
    patchAttempts (Reconcile noFaults uidMismatchStore).effects = 0 ∧
    (Reconcile noFaults uidMismatchStore).store.deployments = uidMismatchStore.deployments :=
  C5_identity_guard noFaults uidMismatchStore _ happyWorkload rfl rfl rfl
    (Or.inr (by decide))

/-- C8: on any invocation that wrote an error condition, the returned error is
exactly the status write's own failure wrapped as a status-update error (and
so `none` when the status write succeeded): the domain error that produced the
condition is never returned. -/
theorem C8_no_domain_error_returned (f : Faults) (s : Store) (c : Condition)
    (hmem : Effect.statusUpdate c ∈ (Reconcile f s).effects)
    (_hc : c.Status = ConditionStatus.error) :
    (Reconcile f s).err = wrapO errUpdateStatus f.statusUpdateErr := by
  cases hf : f.traitGetErr with
  | some e => simp [Reconcile, hf] at hmem
  | none =>
    cases ht : s.trait with
    | none => simp [Reconcile, hf, ht] at hmem
    | some t =>
      cases hw : getWorkload f s.workloads t.Spec.WorkloadReference.Name with
      | error e => simp [Reconcile, hf, ht, hw, UpdateStatus_snd]
      | ok w =>
        by_cases hguard : (t.Spec.WorkloadReference.UID == none
            || some w.UID != t.Spec.WorkloadReference.UID) = true
        · simp [Reconcile, hf, ht, hw, hguard, UpdateStatus_snd]
        · rw [Bool.not_eq_true] at hguard
          cases hscan :
              (resolveDeployment f s.deployments t.Status.Condition w.Resources).2.2 with
          | none => simp [Reconcile, hf, ht, hw, hguard, hscan, UpdateStatus_snd]
          | some d =>
            cases hscr : SetControllerReference t d with
            | error e => simp [Reconcile, hf, ht, hw, hguard, hscan, hscr, UpdateStatus_snd]
            | ok sd =>
              cases hp : f.patchErr with
              | some e =>
                simp [Reconcile, hf, ht, hw, hguard, hscan, hscr, hp, UpdateStatus_snd]
              | none =>
                simp [Reconcile, hf, ht, hw, hguard, hscan, hscr, hp, UpdateStatus_snd]

theorem C8_no_domain_error_returned_witness :
    (Reconcile { noFaults with statusUpdateErr := some "conflict" } uidMismatchStore).err =
      some (wrap errUpdateStatus "conflict") := by
  have h := C8_no_domain_error_returned { noFaults with statusUpdateErr := some "conflict" }
    uidMismatchStore (ReconcileError errLocateWorkload) (by decide) rfl
  simpa [wrapO] using h

/-- C4 as claimed is false: the FetchIntent not-found path is not the sole
exit path without a status write — a trait fetch that fails with any other
error also performs none. -/
theorem C4_counterexample :
    ¬ (∀ (f : Faults) (s : Store), ¬ (f.traitGetErr = none ∧ s.trait = none) →
        statusWrites (Reconcile f s).effects = 1) := by
  intro h
  have hx := h { noFaults with traitGetErr := some "boom" } happyStore (by simp)
  simp [Reconcile, statusWrites] at hx

/-- C4 amended: every invocation performs exactly one status write on the
ScaleIntent, except the FetchIntent exit paths — not-found and any other
trait-fetch error — which perform none. -/
theorem C4_amended_single_status_write (f : Faults) (s : Store) :
    statusWrites (Reconcile f s).effects =
      if f.traitGetErr = none ∧ s.trait.isSome then 1 else 0 := by
  cases hf : f.traitGetErr with
  | some e => simp [Reconcile, hf, statusWrites]
  | none =>
    cases ht : s.trait with
    | none => simp [Reconcile, hf, ht, statusWrites]
    | some t =>
      cases hw : getWorkload f s.workloads t.Spec.WorkloadReference.Name with
      | error e => simp [Reconcile, hf, ht, hw, statusWrites]
      | ok w =>
        by_cases hguard : (t.Spec.WorkloadReference.UID == none
            || some w.UID != t.Spec.WorkloadReference.UID) = true
        · simp [Reconcile, hf, ht, hw, hguard, statusWrites]
        · rw [Bool.not_eq_true] at hguard
          cases hscan :
              (resolveDeployment f s.deployments t.Status.Condition w.Resources).2.2 with
          | none =>
            simp only [Reconcile, hf, ht, hw, hguard, hscan, Bool.false_eq_true, if_false]
            rw [statusWrites_append, statusWrites_append, statusWrites_resolveDeployment]
            simp [statusWrites]
          | some d =>
            cases hscr : SetControllerReference t d with
            | error e =>
              simp only [Reconcile, hf, ht, hw, hguard, hscan, hscr, Bool.false_eq_true,
                if_false]
              rw [statusWrites_append, statusWrites_append, statusWrites_resolveDeployment]
              simp [statusWrites]
            | ok sd =>
              cases hp : f.patchErr with
              | some e =>
                simp only [Reconcile, hf, ht, hw, hguard, hscan, hscr, hp,
                  Bool.false_eq_true, if_false]
                rw [statusWrites_append, statusWrites_append, statusWrites_resolveDeployment]
                simp [statusWrites]
              | none =>
                simp only [Reconcile, hf, ht, hw, hguard, hscan, hscr, hp,
                  Bool.false_eq_true, if_false]
                rw [statusWrites_append, statusWrites_append, statusWrites_resolveDeployment]
                simp [statusWrites]

/-- C3: the reconciler's resolution loop picks exactly the spec's target — the
first `managedResources` entry of Deployment kind whose fetch succeeds,
scanning past per-candidate fetch failures — and when no candidate is
successfully fetched (in particular for an empty sequence), `Reconcile` writes
the `errLocateDeployment` error condition, schedules the fixed-delay retry,
and attempts no patch. -/
theorem C3_resolve_target (f : Faults) (s : Store) (t : ManualScalerTrait)
    (w : ContainerizedWorkload)
    (h1 : f.traitGetErr = none) (h2 : s.trait = some t)
    (h3 : getWorkload f s.workloads t.Spec.WorkloadReference.Name = Except.ok w)
    (h4 : t.Spec.WorkloadReference.UID ≠ none)
    (h5 : some w.UID = t.Spec.WorkloadReference.UID) :
    (resolveDeployment f s.deployments t.Status.Condition w.Resources).2.2
        = specResolveTarget f s.deployments w.Resources ∧
    (specResolveTarget f s.deployments w.Resources = none →
      writtenConditions (Reconcile f s).effects = [ReconcileError errLocateDeployment] ∧
      (Reconcile f s).result.RequeueAfter = oamReconcileWait ∧
      patchAttempts (Reconcile f s).effects = 0) := by
  have hguard : (t.Spec.WorkloadReference.UID == none
      || some w.UID != t.Spec.WorkloadReference.UID) = false := by
    simp [Bool.or_eq_false_iff, h4, h5]
  refine ⟨resolveDeployment_target f s.deployments w.Resources t.Status.Condition, ?_⟩
  intro hnone
  have hscan : (resolveDeployment f s.deployments t.Status.Condition w.Resources).2.2 = none := by
    rw [resolveDeployment_target]; exact hnone
  refine ⟨?_, ?_, ?_⟩
  · simp only [Reconcile, h1, h2, h3, hguard, Bool.false_eq_true, if_false, hscan]
    rw [writtenConditions_append, writtenConditions_append,
      writtenConditions_resolveDeployment]
    simp [writtenConditions]
  · simp [Reconcile, h1, h2, h3, hguard, hscan]
  · simp only [Reconcile, h1, h2, h3, hguard, Bool.false_eq_true, if_false, hscan]
    rw [patchAttempts_append, patchAttempts_append, patchAttempts_resolveDeployment]
    simp [patchAttempts]

/-- The happy-path store with a workload that manages no resources. -/
def emptyResourcesStore : Store :=
  { happyStore with workloads := [("wl1", { happyWorkload with Resources := [] })] }

theorem C3_resolve_target_witness :
    writtenConditions (Reconcile noFaults emptyResourcesStore).effects =
        [ReconcileError errLocateDeployment] ∧
    (Reconcile noFaults emptyResourcesStore).result.RequeueAfter = oamReconcileWait ∧
    patchAttempts (Reconcile noFaults emptyResourcesStore).effects = 0 :=
  (C3_resolve_target noFaults emptyResourcesStore happyTrait
    { happyWorkload with Resources := [] } rfl rfl rfl (by decide) rfl).2 rfl

/-- C2 as claimed is false: when establishing the owner reference fails, the
written error condition is wrapped with `errUpdateDeployment`, not with the
`errScaleDeployment` used when the patch application fails. -/
theorem C2_counterexample :
    SetControllerReference happyTrait foreignOwnedDeployment = Except.error errAlreadyOwned ∧
    writtenConditions (Reconcile noFaults foreignOwnedStore).effects =
      [ReconcileError (wrap errUpdateDeployment errAlreadyOwned)] ∧
    wrap errUpdateDeployment errAlreadyOwned ≠ wrap errScaleDeployment errAlreadyOwned :=
  ⟨rfl, by decide, by decide⟩

/-- C2 amended: when establishing the owner reference fails, `Reconcile`
writes Condition(Error) wrapped with `errUpdateDeployment` — a reason distinct
from the patch-failure path's `errScaleDeployment` — and returns the
fixed-delay retry, with only a status-write failure propagated as the returned
error. -/
theorem C2_amended_ownership_failure (f : Faults) (s : Store) (t : ManualScalerTrait)
    (w : ContainerizedWorkload) (d : Deployment) (e : String)
    (h1 : f.traitGetErr = none) (h2 : s.trait = some t)
    (h3 : getWorkload f s.workloads t.Spec.WorkloadReference.Name = Except.ok w)
    (h4 : t.Spec.WorkloadReference.UID ≠ none)
    (h5 : some w.UID = t.Spec.WorkloadReference.UID)
    (h6 : specResolveTarget f s.deployments w.Resources = some d)
    (h7 : SetControllerReference t d = Except.error e) :
    writtenConditions (Reconcile f s).effects =
        [ReconcileError (wrap errUpdateDeployment e)] ∧
    (Reconcile f s).result.RequeueAfter = oamReconcileWait ∧
    (Reconcile f s).err = wrapO errUpdateStatus f.statusUpdateErr := by
  have hguard : (t.Spec.WorkloadReference.UID == none
      || some w.UID != t.Spec.WorkloadReference.UID) = false := by
    simp [Bool.or_eq_false_iff, h4, h5]
  have hscan : (resolveDeployment f s.deployments t.Status.Condition w.Resources).2.2
      = some d := by
    rw [resolveDeployment_target]; exact h6
  refine ⟨?_, ?_, ?_⟩
  · simp only [Reconcile, h1, h2, h3, hguard, Bool.false_eq_true, if_false, hscan, h7]
    rw [writtenConditions_append, writtenConditions_append,
      writtenConditions_resolveDeployment]
    simp [writtenConditions]
  · simp [Reconcile, h1, h2, h3, hguard, hscan, h7]
  · simp [Reconcile, h1, h2, h3, hguard, hscan, h7, UpdateStatus_snd]

theorem C2_amended_ownership_failure_witness :
    writtenConditions (Reconcile noFaults foreignOwnedStore).effects =
        [ReconcileError (wrap errUpdateDeployment errAlreadyOwned)] ∧
    (Reconcile noFaults foreignOwnedStore).result.RequeueAfter = oamReconcileWait ∧
    (Reconcile noFaults foreignOwnedStore).err = wrapO errUpdateStatus noFaults.statusUpdateErr :=
  C2_amended_ownership_failure noFaults foreignOwnedStore happyTrait happyWorkload
    foreignOwnedDeployment errAlreadyOwned rfl rfl rfl (by decide) rfl rfl rfl

/-- A successful `SetControllerReference` changes exactly the owner-reference
list, by upserting the trait's controller reference. -/
theorem SetControllerReference_ok_shape (t : ManualScalerTrait) (d sd : Deployment)
    (h : SetControllerReference t d = Except.ok sd) :
    sd = { d with OwnerReferences := upsertOwnerRef (ownerRefOfTrait t) d.OwnerReferences } := by
  simp only [SetControllerReference] at h
  cases hf : d.OwnerReferences.find? (fun r => r.Controller) with
  | none => rw [hf] at h; simp at h; exact h.symm
  | some ex =>
    rw [hf] at h
    by_cases hs : referSameObject ex (ownerRefOfTrait t) = true
    · simp [hs] at h; exact h.symm
    · simp [hs] at h

/-- When the mutated copy left the other fields untouched, the merge-patch
document asserts none of them. -/
theorem mergeFrom_otherFields_self (base sd : Deployment)
    (h : sd.OtherFields = base.OtherFields) :
    (MergeFrom base sd).OtherFields = [] := by
  simp [MergeFrom, h, Bool.and_not_self]

/-- C7: every merge-patch document `Reconcile` issues asserts nothing outside
the replica field and the owner references: it contains no other field, so a
value concurrently written to any other field by another actor survives the
patch, whatever the current server-side object is. -/
theorem C7_merge_safety (f : Faults) (s : Store) (n : String) (p : PatchDoc)
    (hmem : Effect.patchDeployment n p ∈ (Reconcile f s).effects) :
    p.OtherFields = [] ∧
    ∀ (current : Deployment) (k : String),
      assocLookup (applyPatch current p).OtherFields k = assocLookup current.OtherFields k ∧
      (applyPatch current p).Name = current.Name ∧
      (applyPatch current p).UID = current.UID := by
  have key : p.OtherFields = [] := by
    cases hf : f.traitGetErr with
    | some e => simp [Reconcile, hf] at hmem
    | none =>
      cases ht : s.trait with
      | none => simp [Reconcile, hf, ht] at hmem
      | some t =>
        cases hw : getWorkload f s.workloads t.Spec.WorkloadReference.Name with
        | error e => simp [Reconcile, hf, ht, hw] at hmem
        | ok w =>
          by_cases hguard : (t.Spec.WorkloadReference.UID == none
              || some w.UID != t.Spec.WorkloadReference.UID) = true
          · simp [Reconcile, hf, ht, hw, hguard] at hmem
          · rw [Bool.not_eq_true] at hguard
            cases hscan :
                (resolveDeployment f s.deployments t.Status.Condition w.Resources).2.2 with
            | none =>
              simp [Reconcile, hf, ht, hw, hguard, hscan] at hmem
              obtain ⟨m, hm⟩ := resolveDeployment_effects f s.deployments w.Resources
                t.Status.Condition _ hmem
              exact absurd hm (by simp)
            | some d =>
              cases hscr : SetControllerReference t d with
              | error e =>
                simp [Reconcile, hf, ht, hw, hguard, hscan, hscr] at hmem
                obtain ⟨m, hm⟩ := resolveDeployment_effects f s.deployments w.Resources
                  t.Status.Condition _ hmem
                exact absurd hm (by simp)
              | ok sd =>
                have hOF : sd.OtherFields = d.OtherFields := by
                  rw [SetControllerReference_ok_shape t d sd hscr]
                cases hp : f.patchErr with
                | some e =>
                  simp [Reconcile, hf, ht, hw, hguard, hscan, hscr, hp] at hmem
                  rcases hmem with hmem | ⟨hn, hp2⟩
                  · obtain ⟨m, hm⟩ := resolveDeployment_effects f s.deployments w.Resources
                      t.Status.Condition _ hmem
                    exact absurd hm (by simp)
                  · rw [hp2]; exact mergeFrom_otherFields_self d sd hOF
                | none =>
                  simp [Reconcile, hf, ht, hw, hguard, hscan, hscr, hp] at hmem
                  rcases hmem with hmem | ⟨hn, hp2⟩
                  · obtain ⟨m, hm⟩ := resolveDeployment_effects f s.deployments w.Resources
                      t.Status.Condition _ hmem
                    exact absurd hm (by simp)
                  · rw [hp2]; exact mergeFrom_otherFields_self d sd hOF
  refine ⟨key, fun current k => ⟨?_, ?_, ?_⟩⟩ <;> simp [applyPatch, key]

/-- The merge-patch document `Reconcile` issues on the spec's happy path:
owner references only. -/
def happyPatchDoc : PatchDoc :=
  { Replicas := none,
    OwnerReferences := some [ownerRefOfTrait happyTrait],
    OtherFields := [] }

/-- The happy-path deployment as concurrently mutated by another actor between
the engine's fetch and its patch. -/
def concurrentDeployment : Deployment :=
  { happyDeployment with Replicas := 7, OtherFields := [("labels.app", "changed")] }

theorem C7_merge_safety_witness :
    assocLookup (applyPatch concurrentDeployment happyPatchDoc).OtherFields "labels.app" =
      some "changed" :=
  ((C7_merge_safety noFaults happyStore "dep1" happyPatchDoc (by decide)).2
    concurrentDeployment "labels.app").1

/-- C1 fails on the code: on the spec's happy-path input (desired 3, matching
identity, one managed Deployment at replica count 1) the reconciliation
reaches the patch, succeeds, writes Condition(Success) and stamps the owner
reference exactly once — but the deployment's replica count is still 1, not
the desired 3: the code never assigns `Spec.Replicas` to the copy before
patching. -/
theorem C1_happy_path_behavior :
    (assocLookup (Reconcile noFaults happyStore).store.deployments "dep1").map
        Deployment.Replicas = some 1 ∧
    happyTrait.Spec.ReplicaCount = 3 ∧
    ((Reconcile noFaults happyStore).store.trait.bind fun tr => tr.Status.Condition) =
      some ReconcileSuccess ∧
    (assocLookup (Reconcile noFaults happyStore).store.deployments "dep1").map
        (fun d => (d.OwnerReferences.filter fun r => r.UID == happyTrait.UID).length) =
      some 1 ∧
    (Reconcile noFaults happyStore).err = none := by
  decide

/-! ## Lemmas towards idempotence -/

@[simp]
theorem SetConditions_Spec (t : ManualScalerTrait) (c : Condition) :
    (SetConditions t c).Spec = t.Spec := rfl

@[simp]
theorem SetConditions_Name (t : ManualScalerTrait) (c : Condition) :
    (SetConditions t c).Name = t.Name := rfl

@[simp]
theorem SetConditions_UID (t : ManualScalerTrait) (c : Condition) :
    (SetConditions t c).UID = t.UID := rfl

@[simp]
theorem ownerRefOfTrait_SetConditions (t : ManualScalerTrait) (c : Condition) :
    ownerRefOfTrait (SetConditions t c) = ownerRefOfTrait t := rfl

@[simp]
theorem SetConditions_idem (t : ManualScalerTrait) (c c' : Condition) :
    SetConditions (SetConditions t c') c = SetConditions t c := rfl

theorem referSameObject_refl (r : OwnerReference) : referSameObject r r = true := by
  simp [referSameObject]

theorem upsertOwnerRef_idem (ref : OwnerReference) (l : List OwnerReference) :
    upsertOwnerRef ref (upsertOwnerRef ref l) = upsertOwnerRef ref l := by
  induction l with
  | nil => simp [upsertOwnerRef, referSameObject_refl]
  | cons r rest ih =>
    by_cases hs : referSameObject r ref = true
    · simp [upsertOwnerRef, hs, referSameObject_refl]
    · simp [upsertOwnerRef, hs, ih]

/-- If every controller reference found before the upsert pointed at the
upserted object, the list after the upsert has a controller reference, and it
points at the upserted object. -/
theorem find_controller_upsert (ref : OwnerReference) (href : ref.Controller = true) :
    ∀ l : List OwnerReference,
      (∀ ex, l.find? (fun r => r.Controller) = some ex → referSameObject ex ref = true) →
      ∃ r', (upsertOwnerRef ref l).find? (fun r => r.Controller) = some r' ∧
        referSameObject r' ref = true := by
  intro l
  induction l with
  | nil =>
    intro _
    exact ⟨ref, by simp [upsertOwnerRef, List.find?, href], referSameObject_refl ref⟩
  | cons r rest ih =>
    intro h
    by_cases hs : referSameObject r ref = true
    · exact ⟨ref, by simp [upsertOwnerRef, hs, List.find?, href], referSameObject_refl ref⟩
    · cases hc : r.Controller with
      | true => exact absurd (h r (by simp [List.find?, hc])) hs
      | false =>
        obtain ⟨r', h1, h2⟩ := ih (fun ex hex => h ex (by simpa [List.find?, hc] using hex))
        exact ⟨r', by simpa [upsertOwnerRef, hs, List.find?, hc] using h1, h2⟩

/-- `SetControllerReference` only inspects the trait through its owner
reference. -/
theorem SetControllerReference_congr (t t' : ManualScalerTrait) (d : Deployment)
    (href : ownerRefOfTrait t' = ownerRefOfTrait t) :
    SetControllerReference t' d = SetControllerReference t d := by
  simp [SetControllerReference, href]

/-- Stamping the controller reference a second time is a no-op. -/
theorem SetControllerReference_idem (t t' : ManualScalerTrait) (d sd : Deployment)
    (h : SetControllerReference t d = Except.ok sd)
    (href : ownerRefOfTrait t' = ownerRefOfTrait t) :
    SetControllerReference t' sd = Except.ok sd := by
  have hshape := SetControllerReference_ok_shape t d sd h
  have hpre : ∀ ex, d.OwnerReferences.find? (fun r => r.Controller) = some ex →
      referSameObject ex (ownerRefOfTrait t) = true := by
    intro ex hex
    simp only [SetControllerReference] at h
    rw [hex] at h
    by_cases hs : referSameObject ex (ownerRefOfTrait t) = true
    · exact hs
    · simp [hs] at h
  have hO : sd.OwnerReferences = upsertOwnerRef (ownerRefOfTrait t) d.OwnerReferences := by
    rw [hshape]
  obtain ⟨r', hfind, hsame⟩ :=
    find_controller_upsert (ownerRefOfTrait t) rfl d.OwnerReferences hpre
  rw [SetControllerReference_congr t t' sd href]
  simp only [SetControllerReference, hO, hfind, hsame, if_true]
  rw [upsertOwnerRef_idem, ← hO]

/-! ## Association-list lemmas -/

theorem assocUpdate_idem {α : Type} (l : List (String × α)) (k : String) (v : α) :
    assocUpdate (assocUpdate l k v) k v = assocUpdate l k v := by
  induction l with
  | nil => rfl
  | cons kv rest ih =>
    by_cases h : kv.1 = k
    · simp [assocUpdate, h]
    · simp [assocUpdate, h, ih]

theorem assocLookup_update_self {α : Type} (l : List (String × α)) (k : String) (x v : α)
    (h : assocLookup l k = some x) :
    assocLookup (assocUpdate l k v) k = some v := by
  induction l with
  | nil => simp [assocLookup] at h
  | cons kv rest ih =>
    by_cases hk : kv.1 = k
    · simp [assocUpdate, hk, assocLookup]
    · simp [assocLookup, hk] at h
      simp [assocUpdate, hk, assocLookup, ih h]

theorem assocUpdate_absent {α : Type} (l : List (String × α)) (k : String) (v : α)
    (h : assocLookup l k = none) :
    assocUpdate l k v = l := by
  induction l with
  | nil => rfl
  | cons kv rest ih =>
    by_cases hk : kv.1 = k
    · simp [assocLookup, hk] at h
    · simp [assocLookup, hk] at h
      simp [assocUpdate, hk, ih h]

theorem assocUpdate_lookup_eq {α : Type} (l : List (String × α)) (k : String) (v : α)
    (h : assocLookup l k = some v) :
    assocUpdate l k v = l := by
  induction l with
  | nil => simp [assocLookup] at h
  | cons kv rest ih =>
    by_cases hk : kv.1 = k
    · simp [assocLookup, hk] at h
      simp [assocUpdate, hk]
      cases kv with
      | mk k0 v0 => simp_all
    · simp [assocLookup, hk] at h
      simp [assocUpdate, hk, ih h]

theorem getDeployment_noFaults {deps : List (String × Deployment)} {n : String} :
    getDeployment noFaults deps n =
      (match assocLookup deps n with
       | some d => Except.ok d
       | none => Except.error errNotFound) := by
  simp [getDeployment, noFaults]

/-- Applying the merge patch computed from a copy that only changed the owner
references reproduces exactly that copy. -/
theorem applyPatch_mergeFrom_owners (base : Deployment) (l : List OwnerReference) :
    applyPatch base (MergeFrom base { base with OwnerReferences := l }) =
      { base with OwnerReferences := l } := by
  have hOF : (MergeFrom base { base with OwnerReferences := l }).OtherFields = [] :=
    mergeFrom_otherFields_self base { base with OwnerReferences := l } rfl
  by_cases hl : l = base.OwnerReferences
  · simp [applyPatch, MergeFrom, hl, Bool.and_not_self]
  · simp [applyPatch, MergeFrom, hl, Bool.and_not_self]

/-- Patching with the merge of an object against itself is a no-op. -/
theorem applyPatch_mergeFrom_self (d : Deployment) :
    applyPatch d (MergeFrom d d) = d :=
  applyPatch_mergeFrom_owners d d.OwnerReferences

theorem assocLookup_update_ne {α : Type} (l : List (String × α)) (k k' : String) (v : α)
    (h : k' ≠ k) :
    assocLookup (assocUpdate l k v) k' = assocLookup l k' := by
  induction l with
  | nil => rfl
  | cons kv rest ih =>
    by_cases hk : kv.1 = k
    · simp [assocUpdate, hk, assocLookup, Ne.symm h]
    · simp [assocUpdate, hk, assocLookup, ih]

/-- Fault-free resolution is stable under rewriting the resolved deployment's
entry: the scan either picks up the rewritten object (when the store key is
the resolved object's own name) or re-resolves the same object. -/
theorem specResolveTarget_update (deps : List (String × Deployment)) (d v : Deployment) :
    ∀ l : List TypedReference,
      specResolveTarget noFaults deps l = some d →
      (assocLookup deps d.Name = some d ∧
        specResolveTarget noFaults (assocUpdate deps d.Name v) l = some v) ∨
      specResolveTarget noFaults (assocUpdate deps d.Name v) l = some d := by
  intro l
  induction l with
  | nil => intro h; simp [specResolveTarget] at h
  | cons res rest ih =>
    intro h
    by_cases hk : (res.Kind == KindDeployment) = true
    · cases hlook : assocLookup deps res.Name with
      | some d0 =>
        have hd0 : d0 = d := by
          simp only [specResolveTarget, hk, if_true, getDeployment_noFaults, hlook] at h
          simpa using h
        subst hd0
        by_cases hn : res.Name = d0.Name
        · have hlook' : assocLookup deps d0.Name = some d0 := hn ▸ hlook
          have hup : assocLookup (assocUpdate deps d0.Name v) res.Name = some v := by
            rw [hn]
            exact assocLookup_update_self deps d0.Name d0 v hlook'
          left
          refine ⟨hlook', ?_⟩
          simp only [specResolveTarget, hk, if_true, getDeployment_noFaults, hup]
        · have hup : assocLookup (assocUpdate deps d0.Name v) res.Name
              = assocLookup deps res.Name := assocLookup_update_ne deps d0.Name res.Name v hn
          right
          simp only [specResolveTarget, hk, if_true, getDeployment_noFaults, hup, hlook]
      | none =>
        have hrest : specResolveTarget noFaults deps rest = some d := by
          simp only [specResolveTarget, hk, if_true, getDeployment_noFaults, hlook] at h
          simpa using h
        by_cases hn : res.Name = d.Name
        · have habs : assocUpdate deps d.Name v = deps := by
            apply assocUpdate_absent
            rw [← hn]
            exact hlook
          rw [habs]
          exact Or.inr h
        · have hup : assocLookup (assocUpdate deps d.Name v) res.Name
              = assocLookup deps res.Name := assocLookup_update_ne deps d.Name res.Name v hn
          rcases ih hrest with ⟨h1, h2⟩ | h2
          · left
            refine ⟨h1, ?_⟩
            simp only [specResolveTarget, hk, if_true, getDeployment_noFaults, hup, hlook]
            exact h2
          · right
            simp only [specResolveTarget, hk, if_true, getDeployment_noFaults, hup, hlook]
            exact h2
    · have hk' : (res.Kind == KindDeployment) = false := by
        rw [Bool.not_eq_true] at hk
        exact hk
      simp only [specResolveTarget, hk', Bool.false_eq_true, if_false] at h
      rcases ih h with ⟨h1, h2⟩ | h2
      · left
        refine ⟨h1, ?_⟩
        simp only [specResolveTarget, hk', Bool.false_eq_true, if_false]
        exact h2
      · right
        simp only [specResolveTarget, hk', Bool.false_eq_true, if_false]
        exact h2

theorem noFaults_traitGetErr : noFaults.traitGetErr = none := rfl

theorem noFaults_patchErr : noFaults.patchErr = none := rfl

theorem UpdateStatus_noFaults (s : Store) (t : ManualScalerTrait) :
    UpdateStatus noFaults s t = ({ s with trait := some t }, none) := rfl

/-- C9: reconciliation is idempotent — with no intervening external change and
no transient faults, running `Reconcile` a second time on the store the first
run produced leaves the store exactly as it was: every deployment (in
particular its replica count) and the trait's condition are unchanged by the
second run. -/
theorem C9_idempotent (s : Store) :
    (Reconcile noFaults (Reconcile noFaults s).store).store = (Reconcile noFaults s).store := by
  cases ht : s.trait with
  | none =>
    have h1 : Reconcile noFaults s = ⟨s, ⟨0⟩, none, [Effect.getTrait]⟩ := by
      simp [Reconcile, noFaults_traitGetErr, ht]
    simp [h1, Reconcile, noFaults_traitGetErr, ht]
  | some t =>
    cases hw : getWorkload noFaults s.workloads t.Spec.WorkloadReference.Name with
    | error e =>
      have h1 : (Reconcile noFaults s).store
          = { s with trait := some (SetConditions t (ReconcileError (wrap errLocateWorkload e))) } := by
        simp [Reconcile, noFaults_traitGetErr, noFaults_patchErr, ht, hw, UpdateStatus_noFaults]
      rw [h1]
      simp [Reconcile, noFaults_traitGetErr, noFaults_patchErr, hw, UpdateStatus_noFaults]
    | ok w =>
      by_cases hguard : (t.Spec.WorkloadReference.UID == none
          || some w.UID != t.Spec.WorkloadReference.UID) = true
      · have h1 : (Reconcile noFaults s).store
            = { s with trait := some (SetConditions t (ReconcileError errLocateWorkload)) } := by
          simp [Reconcile, noFaults_traitGetErr, noFaults_patchErr, ht, hw, hguard, UpdateStatus_noFaults]
        rw [h1]
        simp [Reconcile, noFaults_traitGetErr, noFaults_patchErr, hw, hguard, UpdateStatus_noFaults]
      · rw [Bool.not_eq_true] at hguard
        cases htarget : specResolveTarget noFaults s.deployments w.Resources with
        | none =>
          have h1 : (Reconcile noFaults s).store
              = { s with trait := some (SetConditions t (ReconcileError errLocateDeployment)) } := by
            simp [Reconcile, noFaults_traitGetErr, noFaults_patchErr, ht, hw, hguard,
              resolveDeployment_target, htarget, UpdateStatus_noFaults]
          rw [h1]
          simp [Reconcile, noFaults_traitGetErr, noFaults_patchErr, hw, hguard,
            resolveDeployment_target, htarget, UpdateStatus_noFaults]
        | some d =>
          cases hscr : SetControllerReference t d with
          | error e =>
            have h1 : (Reconcile noFaults s).store
                = { s with
                    trait := some (SetConditions t
                      (ReconcileError (wrap errUpdateDeployment e))) } := by
              simp [Reconcile, noFaults_traitGetErr, noFaults_patchErr, ht, hw, hguard,
                resolveDeployment_target, htarget, hscr, UpdateStatus_noFaults]
            rw [h1]
            have hscr2 : SetControllerReference
                (SetConditions t (ReconcileError (wrap errUpdateDeployment e))) d
                  = Except.error e :=
              (SetControllerReference_congr t
                (SetConditions t (ReconcileError (wrap errUpdateDeployment e))) d rfl).trans hscr
            simp [Reconcile, noFaults_traitGetErr, noFaults_patchErr, hw, hguard,
              resolveDeployment_target, htarget, hscr2, UpdateStatus_noFaults]
          | ok sd =>
            have hap : applyPatch d (MergeFrom d sd) = sd := by
              rw [SetControllerReference_ok_shape t d sd hscr]
              exact applyPatch_mergeFrom_owners d _
            have hdName : sd.Name = d.Name := by
              rw [SetControllerReference_ok_shape t d sd hscr]
            have h1 : (Reconcile noFaults s).store
                = { s with
                    trait := some (SetConditions t ReconcileSuccess),
                    deployments := assocUpdate s.deployments d.Name sd } := by
              simp [Reconcile, noFaults_traitGetErr, noFaults_patchErr, ht, hw, hguard,
                resolveDeployment_target, htarget, hscr, UpdateStatus_noFaults, hap]
            rw [h1]
            rcases specResolveTarget_update s.deployments d sd w.Resources htarget with
              ⟨hpresent, htarget2⟩ | htarget2
            · have hscr2 : SetControllerReference (SetConditions t ReconcileSuccess) sd
                  = Except.ok sd :=
                SetControllerReference_idem t (SetConditions t ReconcileSuccess) d sd hscr rfl
              have hap2 : applyPatch sd (MergeFrom sd sd) = sd := applyPatch_mergeFrom_self sd
              have hlook2 : assocLookup (assocUpdate s.deployments d.Name sd) d.Name
                  = some sd :=
                assocLookup_update_self s.deployments d.Name d sd hpresent
              have hupd2 : assocUpdate (assocUpdate s.deployments d.Name sd) sd.Name sd
                  = assocUpdate s.deployments d.Name sd := by
                rw [hdName]
                exact assocUpdate_lookup_eq _ d.Name sd hlook2
              simp [Reconcile, noFaults_traitGetErr, noFaults_patchErr, hw, hguard,
                resolveDeployment_target, htarget2, hscr2, UpdateStatus_noFaults, hap2, hupd2]
            · have hscr2 : SetControllerReference (SetConditions t ReconcileSuccess) d
                  = Except.ok sd :=
                (SetControllerReference_congr t (SetConditions t ReconcileSuccess) d rfl).trans
                  hscr
              have hupd2 : assocUpdate (assocUpdate s.deployments d.Name sd) d.Name sd
                  = assocUpdate s.deployments d.Name sd := assocUpdate_idem _ _ _
              simp [Reconcile, noFaults_traitGetErr, noFaults_patchErr, hw, hguard,
                resolveDeployment_target, htarget2, hscr2, UpdateStatus_noFaults, hap, hupd2]

end OamScaler
